import Mathlib

/-
  Shallow embedding of the polymer-workspaces Workspace Synchronization Engine:
  the GitHubConnection (pattern parsing/expansion, repo-metadata cache and
  pagination) and the Workspace orchestrator (init state machine, run).
  JavaScript strings are modelled as `List Char`; `String.prototype.split` with
  a one-character separator is modelled by `splitOnChar`; the GitHub REST
  client, filesystem and git/bower collaborators are modelled as oracles.
-/

namespace PolymerWorkspaces

/-- JavaScript strings are modelled as lists of characters. -/
abbrev Str := List Char

/-- Models `s.toLowerCase()` (a properly invoked method call). -/
def toLowerStr (s : Str) : Str := s.map Char.toLower

/-- The errors thrown by the embedded code or by the external collaborators. -/
inductive JsError where
  /-- `Repo '...' is not in form user/repo or user/repo#ref`, thrown by
  `fullNameToGithubRepoReference`. -/
  | badPattern (pattern : Str)
  /-- The TypeError raised when `String.prototype.toLowerCase` is invoked with
  an undefined `this` value. -/
  | typeError
  /-- `Repo owner/name could not be loaded.`, thrown by `getRepoInfo` on a
  301 redirect response. -/
  | repoMoved (owner name : Str)
  /-- A generic hosting-API failure (repository not found, network error...). -/
  | notFound
  /-- `Workspace has already been initialized.` -/
  | alreadyInitialized
  /-- `Workspace has not been initialized, run init() first.` -/
  | notInitialized
  /-- `global "git" command not found`. -/
  | missingGit
  /-- `global "bower" command not found`. -/
  | missingBower
  /-- A failure of an external git/bower command. -/
  | commandFailed
  /-- Artifact of the bounded model: the pagination loop ran out of fuel.
  Never occurs when the API oracle eventually returns an empty page. -/
  | fuelOut
deriving DecidableEq

/-- `GitHubRepoReference`: an unresolved repository request parsed from a
pattern string (TS interface in the github module). -/
structure GitHubRepoReference where
  owner : Str
  name : Str
  fullName : Str
  ref : Option Str
deriving DecidableEq

/-- `GitHubRepoCached`: the hosting-API-sourced repository metadata stored in
the connection cache. Note the type has no `ref` field: the cache can never
store a ref. -/
structure GitHubRepoCached where
  owner : Str
  name : Str
  fullName : Str
  cloneUrl : Str
  defaultBranch : Str
deriving DecidableEq

/-- `GitHubRepo`: resolved metadata plus the concrete `ref`, as produced by
`Object.assign({}, cachedRepo, {ref})`. -/
structure GitHubRepo extends GitHubRepoCached where
  ref : Str
deriving DecidableEq

/-- JS `x || y` where `x : string | undefined | false`: the empty string and
`undefined`/`false` are falsy. -/
def jsOrStr : Option Str → Str → Str
  | some s, dflt => if s = [] then dflt else s
  | none, dflt => dflt

/-- `s.split(sep)` for a one-character separator, on the `List Char` model.
Matches JS: `"".split(s) = [""]`, separators at the ends produce empty
segments. The result is always non-empty; the `headD`/`tail` in the cons case
read the head/tail of the recursive result. -/
def splitOnChar (sep : Char) : Str → List Str
  | [] => [[]]
  | c :: rest =>
    let r := splitOnChar sep rest
    if c = sep then [] :: r
    else (c :: r.headD []) :: r.tail

/-- `fullNameToGithubRepoReference(pattern)`: split on `#`, then split the
part before the hash on `/`; throw unless there are exactly two slash segments
and at most two hash segments. `ref` is `hashSplit[1] || undefined`, so a
missing or empty trailing ref yields no ref. -/
def fullNameToGithubRepoReference (pattern : Str) : Except JsError GitHubRepoReference :=
  let hashSplit := splitOnChar '#' pattern
  let slashSplit := splitOnChar '/' (hashSplit.headD [])
  if slashSplit.length ≠ 2 ∨ 2 < hashSplit.length then
    Except.error (JsError.badPattern pattern)
  else
    Except.ok
      { fullName := hashSplit.headD []
        owner := slashSplit.headD []
        name := slashSplit.getD 1 []
        ref :=
          match hashSplit.getD 1 [] with
          | [] => none
          | r => some r }

/-- The connection's `Map<string, GitHubRepoCached>` cache, as an association
list in insertion order. -/
abbrev Cache := List (Str × GitHubRepoCached)

/-- `Map.prototype.get`. -/
def mapGet : Cache → Str → Option GitHubRepoCached
  | [], _ => none
  | (k, v) :: rest, key => if k = key then some v else mapGet rest key

/-- `Map.prototype.set`: overwrite in place if the key is present, else append
(JS Maps keep insertion order). -/
def mapSet : Cache → Str → GitHubRepoCached → Cache
  | [], key, v => [(key, v)]
  | (k, v') :: rest, key, v =>
    if k = key then (key, v) :: rest else (k, v') :: mapSet rest key v

/-- The raw repository object returned by the GitHub API (only the fields the
code consumes; `isPrivate` models the `private` field). -/
structure ApiRepoObj where
  ownerLogin : Str
  name : Str
  fullName : Str
  cloneUrl : Str
  defaultBranch : Str
  isPrivate : Bool
deriving DecidableEq

/-- The response of `github.repos.get`: the repository object plus whether
`meta.status` matches `/^301\b/`. -/
structure ApiGetResponse where
  redirect : Bool
  data : ApiRepoObj
deriving DecidableEq

/-- `isRedirect(response)`: the `meta.status` 301 test, modelled as a flag on
the response. -/
def isRedirect (response : ApiGetResponse) : Bool := response.redirect

/-- `formatGitHubRepoFromApi(obj)`. -/
def formatGitHubRepoFromApi (obj : ApiRepoObj) : GitHubRepoCached :=
  { owner := obj.ownerLogin
    name := obj.name
    fullName := obj.fullName
    cloneUrl := obj.cloneUrl
    defaultBranch := obj.defaultBranch }

/-- The GitHub REST client, an external collaborator modelled as an oracle:
`repos.get {owner, repo}`, `repos.getForOrg {org, per_page, page}` and
`repos.getForUser {username, per_page, page}`. -/
structure GitHubApi where
  reposGet : Str → Str → Except JsError ApiGetResponse
  getForOrg : Str → Nat → Nat → Except JsError (List ApiRepoObj)
  getForUser : Str → Nat → Nat → Except JsError (List ApiRepoObj)

/-- `GitHubConnection.getRepoInfo(repoReference)`. Returns the result, the
cache after the call, and the number of API requests issued. A cache hit
returns the cached metadata merged with `repoReference.ref ||
cachedRepo.defaultBranch` and issues no request; a miss re-parses the full
name, issues one `repos.get`, rejects redirects, and caches the result. -/
def getRepoInfo (api : GitHubApi) (cache : Cache) (repoReference : GitHubRepoReference) :
    (Except JsError GitHubRepo) × Cache × Nat :=
  match mapGet cache repoReference.fullName with
  | some cachedRepo =>
    (Except.ok { toGitHubRepoCached := cachedRepo
                 ref := jsOrStr repoReference.ref cachedRepo.defaultBranch },
     cache, 0)
  | none =>
    match fullNameToGithubRepoReference repoReference.fullName with
    | Except.error e => (Except.error e, cache, 0)
    | Except.ok repoRef =>
      match api.reposGet repoRef.owner repoRef.name with
      | Except.error e => (Except.error e, cache, 1)
      | Except.ok response =>
        if isRedirect response then
          (Except.error (JsError.repoMoved repoRef.owner repoRef.name), cache, 1)
        else
          let gitHubRepoCached := formatGitHubRepoFromApi response.data
          (Except.ok { toGitHubRepoCached := gitHubRepoCached
                       ref := jsOrStr repoReference.ref gitHubRepoCached.defaultBranch },
           mapSet cache repoReference.fullName gitHubRepoCached, 1)

/-- One iteration body of the `getOwnerRepos` do-while loop: try the org
listing while `isOrg` holds, fall back to the user listing on failure, and on
that failure too produce an empty page. Private repositories are filtered out
before formatting. Returns the filtered page and the updated `isOrg` flag.
The page size is the literal 50 from the source. -/
def pageFetch (api : GitHubApi) (owner : Str) (page : Nat) (isOrg : Bool) :
    List GitHubRepoCached × Bool :=
  if isOrg then
    match api.getForOrg owner 50 page with
    | Except.ok data =>
      ((data.filter (fun o => !o.isPrivate)).map formatGitHubRepoFromApi, true)
    | Except.error _ =>
      match api.getForUser owner 50 page with
      | Except.ok data =>
        ((data.filter (fun o => !o.isPrivate)).map formatGitHubRepoFromApi, false)
      | Except.error _ => ([], false)
  else
    match api.getForUser owner 50 page with
    | Except.ok data =>
      ((data.filter (fun o => !o.isPrivate)).map formatGitHubRepoFromApi, false)
    | Except.error _ => ([], false)

/-- `this._cache.set(repo.fullName, repo)` over a page, in order. -/
def cacheAll (repos : List GitHubRepoCached) (cache : Cache) : Cache :=
  repos.foldl (fun c r => mapSet c r.fullName r) cache

/-- The `getOwnerRepos` do-while loop, bounded by fuel (one unit per page).
Returns the accumulated repos, the cache, and the list of page indices
requested; `none` only on fuel exhaustion. The loop runs at least once and
stops after the first page whose filtered result is empty. -/
def getOwnerReposGo (api : GitHubApi) (owner : Str) :
    Nat → Nat → Bool → Cache → Option (List GitHubRepoCached × Cache × List Nat)
  | 0, _, _, _ => none
  | fuel + 1, page, isOrg, cache =>
    let (pageRepos, isOrg') := pageFetch api owner page isOrg
    let cache' := cacheAll pageRepos cache
    if pageRepos.isEmpty then some (pageRepos, cache', [page])
    else
      match getOwnerReposGo api owner fuel (page + 1) isOrg' cache' with
      | none => none
      | some (rest, cache2, pages) => some (pageRepos ++ rest, cache2, page :: pages)

/-- `GitHubConnection.getOwnerRepos(owner)`: paginate from page 0 starting in
org mode. -/
def getOwnerRepos (api : GitHubApi) (fuel : Nat) (cache : Cache) (owner : Str) :
    Option (List GitHubRepoCached × Cache × List Nat) :=
  getOwnerReposGo api owner fuel 0 true cache

/-- The synchronous scan loop at the top of `expandRepoPatterns`: patterns
with no `/` are skipped with a warning; patterns containing `*` are collected
into `ownersToLookup` (a Set of strings, so deduplicated by value); the rest
are parsed, and a parse failure propagates out of the whole call. The JS Set
`allGitHubRepos` holds objects, whose Set membership is reference identity;
every inserted reference is freshly constructed, so insertion never collapses
and the set is modelled as a list in insertion order. Returns (direct
references, owner lookup patterns) or the thrown error, plus the warned
patterns. -/
def expandScanGo : List Str → List GitHubRepoReference → List Str → List Str →
    (Except JsError (List GitHubRepoReference × List Str)) × List Str
  | [], refs, owners, warns => (Except.ok (refs, owners), warns)
  | p :: rest, refs, owners, warns =>
    if '/' ∈ p then
      if '*' ∈ p then
        expandScanGo rest refs (if p ∈ owners then owners else owners ++ [p]) warns
      else
        match fullNameToGithubRepoReference p with
        | Except.error e => (Except.error e, warns)
        | Except.ok r => expandScanGo rest (refs ++ [r]) owners warns
    else
      expandScanGo rest refs owners (warns ++ [p])

/-- The owner portion of a wildcard pattern:
`pattern.substring(0, pattern.indexOf('/')).toLowerCase()`. -/
def ownerBeforeSlash (pattern : Str) : Str :=
  toLowerStr (pattern.takeWhile (fun c => c ≠ '/'))

/-- `pattern.includes('#') && pattern.substring(pattern.indexOf('#') + 1)`:
`none` models the boolean `false`. -/
def ownerRefAfterHash (pattern : Str) : Option Str :=
  if '#' ∈ pattern then some ((pattern.dropWhile (fun c => c ≠ '#')).drop 1)
  else none

/-- One deferred owner lookup of `expandRepoPatterns`: list the owner's repos
and turn each into a reference whose ref is the pattern's trailing `#ref` if
present and non-empty, else the repository's default branch. -/
def ownerExpand (api : GitHubApi) (fuel : Nat) (cache : Cache) (pattern : Str) :
    (Except JsError (List GitHubRepoReference)) × Cache :=
  let owner := ownerBeforeSlash pattern
  let ref := ownerRefAfterHash pattern
  match getOwnerRepos api fuel cache owner with
  | none => (Except.error JsError.fuelOut, cache)
  | some (ownerCachedRepos, cache', _pages) =>
    (Except.ok (ownerCachedRepos.map (fun cachedRepo =>
      { owner := cachedRepo.owner
        name := cachedRepo.name
        fullName := cachedRepo.fullName
        ref := some (jsOrStr ref cachedRepo.defaultBranch) })), cache')

/-- The `Promise.all` over `ownersToLookup`, modelled sequentially in Set
insertion order (each task appends its discovered references to the shared
result set; no claim here depends on the interleaving order). -/
def expandOwnersGo (api : GitHubApi) (fuel : Nat) :
    List Str → Cache → List GitHubRepoReference →
    (Except JsError (List GitHubRepoReference)) × Cache
  | [], cache, acc => (Except.ok acc, cache)
  | p :: rest, cache, acc =>
    match ownerExpand api fuel cache p with
    | (Except.error e, cache') => (Except.error e, cache')
    | (Except.ok refs, cache') => expandOwnersGo api fuel rest cache' (acc ++ refs)

/-- `GitHubConnection.expandRepoPatterns(repoPatterns)`. Returns the
references, the cache after the call, and the warned (skipped) patterns. -/
def expandRepoPatterns (api : GitHubApi) (fuel : Nat) (cache : Cache)
    (repoPatterns : List Str) :
    (Except JsError (List GitHubRepoReference)) × Cache × List Str :=
  match expandScanGo repoPatterns [] [] [] with
  | (Except.error e, warns) => (Except.error e, cache, warns)
  | (Except.ok (refs, owners), warns) =>
    if owners.isEmpty then (Except.ok refs, cache, warns)
    else
      match expandOwnersGo api fuel owners cache refs with
      | (Except.error e, cache') => (Except.error e, cache', warns)
      | (Except.ok allRefs, cache') => (Except.ok allRefs, cache', warns)

/-- The per-repository resolution failure record (`GitHubRepoError`). -/
structure GitHubRepoError where
  error : JsError
  repoReference : GitHubRepoReference
deriving DecidableEq

/-- Models `excludes.map(String.prototype.toLowerCase)`: `Array.prototype.map`
invokes its callback with an undefined `this` value, and
`String.prototype.toLowerCase` begins with `RequireObjectCoercible(this)`,
which throws a TypeError for undefined. So the map throws on the first element
of any non-empty array and only succeeds (vacuously) on the empty array. -/
def mapToLowerCasePrototype (excludes : List Str) : Except JsError (List Str) :=
  match excludes with
  | [] => Except.ok []
  | _ :: _ => Except.error JsError.typeError

/-- The `Promise.all` of `getRepoInfo` calls over the filtered references in
`_determineGitHubRepos`, each wrapped in try/catch: a success contributes the
repo, a failure contributes an `{error, repoReference}` record; no failure
aborts the others. The shared cache is threaded in list order. -/
def resolveRefsGo (api : GitHubApi) :
    List GitHubRepoReference → Cache → List (GitHubRepo ⊕ GitHubRepoError) × Cache
  | [], cache => ([], cache)
  | repoRef :: rest, cache =>
    match getRepoInfo api cache repoRef with
    | (Except.ok repo, cache', _) =>
      let (tail, cache2) := resolveRefsGo api rest cache'
      (Sum.inl repo :: tail, cache2)
    | (Except.error e, cache', _) =>
      let (tail, cache2) := resolveRefsGo api rest cache'
      (Sum.inr { error := e, repoReference := repoRef } :: tail, cache2)

/-- `Workspace._determineGitHubRepos(repoPatterns, excludes)`: lower-case the
excludes (which throws for any non-empty list, see
`mapToLowerCasePrototype`), expand the patterns, drop references whose
lower-cased `fullName` is excluded, resolve each survivor independently, and
filter out (logging) the failure records. Returns the result, the cache after
the call, and the reported failure records. -/
def determineGitHubRepos (api : GitHubApi) (fuel : Nat) (cache : Cache)
    (repoPatterns excludes : List Str) :
    (Except JsError (List GitHubRepo)) × Cache × List GitHubRepoError :=
  match mapToLowerCasePrototype excludes with
  | Except.error e => (Except.error e, cache, [])
  | Except.ok excludesLower =>
    match expandRepoPatterns api fuel cache repoPatterns with
    | (Except.error e, cache', _) => (Except.error e, cache', [])
    | (Except.ok repoRefs0, cache', _) =>
      let repoRefs := repoRefs0.filter
        (fun repoRef => !(excludesLower.contains (toLowerStr repoRef.fullName)))
      let (githubReposMaybe, cache2) := resolveRefsGo api repoRefs cache'
      let githubRepos := githubReposMaybe.filterMap (fun m =>
        match m with
        | Sum.inl repo => some repo
        | Sum.inr _ => none)
      let reported := githubReposMaybe.filterMap (fun m =>
        match m with
        | Sum.inl _ => none
        | Sum.inr failure => some failure)
      (Except.ok githubRepos, cache2, reported)

/-- `GitRepo`: a stateless session wrapper holding one working directory. -/
structure GitRepo where
  cwd : Str
deriving DecidableEq

/-- `WorkspaceRepo`: local directory, git session and resolved GitHub repo. -/
structure WorkspaceRepo where
  dir : Str
  git : GitRepo
  github : GitHubRepo
deriving DecidableEq

/-- `WorkspaceInitOptions` (`fresh`, `verbose`). -/
structure WorkspaceInitOptions where
  fresh : Bool
  verbose : Bool
deriving DecidableEq

/-- The mutable state of a `Workspace` instance: the root directory, the
connection's cache, and `_initializedRepos` (undefined until `init`
completes). -/
structure WorkspaceState where
  dir : Str
  cache : Cache
  initializedRepos : Option (List WorkspaceRepo)
deriving DecidableEq

/-- The external collaborators `init` drives, modelled as oracles: the REST
client, command availability for the preflight checks, and the outcomes of
the filesystem-preparation, clone/update, bower-configuration and
bower-install steps (each may fail with any error). -/
structure InitEnv where
  api : GitHubApi
  fuel : Nat
  gitAvailable : Bool
  bowerAvailable : Bool
  prepare : List WorkspaceRepo → WorkspaceInitOptions → Except JsError Unit
  sync : List WorkspaceRepo → Except JsError Unit
  configure : List WorkspaceRepo → Except JsError Unit
  install : Except JsError Unit

/-- `Workspace._initValidate()`: throw if already initialized, then check the
`git` and `bower` commands. -/
def initValidate (env : InitEnv) (st : WorkspaceState) : Except JsError Unit :=
  if st.initializedRepos.isSome then Except.error JsError.alreadyInitialized
  else if !env.gitAvailable then Except.error JsError.missingGit
  else if !env.bowerAvailable then Except.error JsError.missingBower
  else Except.ok ()

/-- `Workspace._openWorkspaceRepo(repo)`: `path.resolve(this.dir, repo.name)`
modelled as path concatenation. -/
def openWorkspaceRepo (wsDir : Str) (repo : GitHubRepo) : WorkspaceRepo :=
  let sessionDir := wsDir ++ '/' :: repo.name
  { dir := sessionDir, git := { cwd := sessionDir }, github := repo }

/-- The post-resolution steps of `Workspace.init`: prepare the workspace
folders, clone/update every repo, configure bower, install; only after every
step succeeds record `_initializedRepos`. Every failure propagates with the
state unchanged. -/
def initSteps (env : InitEnv) (st1 : WorkspaceState)
    (workspaceRepos : List WorkspaceRepo) (options : WorkspaceInitOptions) :
    (Except JsError (List WorkspaceRepo)) × WorkspaceState :=
  match env.prepare workspaceRepos options with
  | Except.error e => (Except.error e, st1)
  | Except.ok _ =>
    match env.sync workspaceRepos with
    | Except.error e => (Except.error e, st1)
    | Except.ok _ =>
      match env.configure workspaceRepos with
      | Except.error e => (Except.error e, st1)
      | Except.ok _ =>
        match env.install with
        | Except.error e => (Except.error e, st1)
        | Except.ok _ =>
          (Except.ok workspaceRepos,
           { st1 with initializedRepos := some workspaceRepos })

/-- `Workspace.init(patterns, options)`: validate, determine repos, open one
session per resolved repo, then run the remaining steps (`initSteps`). Every
failure propagates with the state otherwise reached (the cache may have
grown; the initialized set is untouched). -/
def init (env : InitEnv) (st : WorkspaceState)
    (includePatterns excludePatterns : List Str) (options : WorkspaceInitOptions) :
    (Except JsError (List WorkspaceRepo)) × WorkspaceState :=
  match initValidate env st with
  | Except.error e => (Except.error e, st)
  | Except.ok _ =>
    match determineGitHubRepos env.api env.fuel st.cache includePatterns excludePatterns with
    | (Except.error e, cache', _) => (Except.error e, { st with cache := cache' })
    | (Except.ok githubRepos, cache', _) =>
      initSteps env { st with cache := cache' }
        (githubRepos.map (openWorkspaceRepo st.dir)) options

/-- The sequential loop of `Workspace.run`: apply `fn` to each repo in order,
collecting successes and per-repo failures (the `failRuns` Map keyed by the
repo objects, as an association list in insertion order). -/
def runRepos (fn : WorkspaceRepo → Except JsError Unit) :
    List WorkspaceRepo → List WorkspaceRepo × List (WorkspaceRepo × JsError)
  | [] => ([], [])
  | repo :: rest =>
    let (succ, fail) := runRepos fn rest
    match fn repo with
    | Except.ok _ => (repo :: succ, fail)
    | Except.error e => (succ, (repo, e) :: fail)

/-- `Workspace.run(fn)`: requires prior init, else throws; otherwise the
sequential success/failure partition. -/
def run (st : WorkspaceState) (fn : WorkspaceRepo → Except JsError Unit) :
    Except JsError (List WorkspaceRepo × List (WorkspaceRepo × JsError)) :=
  match st.initializedRepos with
  | none => Except.error JsError.notInitialized
  | some repos => Except.ok (runRepos fn repos)

/-- A hosting API on which every request fails: used for runs that never
reach the API. -/
def emptyApi : GitHubApi :=
  { reposGet := fun _ _ => Except.error JsError.notFound
    getForOrg := fun _ _ _ => Except.error JsError.notFound
    getForUser := fun _ _ _ => Except.error JsError.notFound }

/-- The reference parsed from the pattern `a/b`. -/
def refAB : GitHubRepoReference :=
  { owner := "a".toList, name := "b".toList, fullName := "a/b".toList, ref := none }

/-- The reference parsed from the pattern `o/x`. -/
def refOX : GitHubRepoReference :=
  { owner := "o".toList, name := "x".toList, fullName := "o/x".toList, ref := none }

/-- The reference parsed from the pattern `o/y`. -/
def refOY : GitHubRepoReference :=
  { owner := "o".toList, name := "y".toList, fullName := "o/y".toList, ref := none }

/-- A hosting API for the independent-resolution scenario: `o/x` fails with
the given error, `o/y` answers with the given response. -/
def twoRepoApi (ex : JsError) (respY : ApiGetResponse) : GitHubApi :=
  { reposGet := fun owner name =>
      if owner = "o".toList ∧ name = "x".toList then Except.error ex
      else if owner = "o".toList ∧ name = "y".toList then Except.ok respY
      else Except.error JsError.notFound
    getForOrg := fun _ _ _ => Except.error JsError.notFound
    getForUser := fun _ _ _ => Except.error JsError.notFound }

/-- The API repository object for the public repo `org/a`. -/
def orgRepoA : ApiRepoObj :=
  { ownerLogin := "org".toList, name := "a".toList, fullName := "org/a".toList
    cloneUrl := "url-a".toList, defaultBranch := "main".toList, isPrivate := false }

/-- The API repository object for the public repo `org/b`. -/
def orgRepoB : ApiRepoObj :=
  { ownerLogin := "org".toList, name := "b".toList, fullName := "org/b".toList
    cloneUrl := "url-b".toList, defaultBranch := "main".toList, isPrivate := false }

/-- The API repository object for the private repo `org/c`. -/
def orgRepoC : ApiRepoObj :=
  { ownerLogin := "org".toList, name := "c".toList, fullName := "org/c".toList
    cloneUrl := "url-c".toList, defaultBranch := "main".toList, isPrivate := true }

/-- An organization `org` whose first listing page is `{a, b, private c}` and
whose later pages are empty. The page answers only for per-page 50, so a
successful run also checks the fixed page size the code passes. -/
def orgApi : GitHubApi :=
  { reposGet := fun _ _ => Except.error JsError.notFound
    getForOrg := fun owner perPage page =>
      if owner = "org".toList ∧ perPage = 50 ∧ page = 0 then
        Except.ok [orgRepoA, orgRepoB, orgRepoC]
      else Except.ok []
    getForUser := fun _ _ _ => Except.error JsError.notFound }

/-- The cached metadata of `org/a`. -/
def cachedOrgA : GitHubRepoCached := formatGitHubRepoFromApi orgRepoA

/-- The cached metadata of `org/b`. -/
def cachedOrgB : GitHubRepoCached := formatGitHubRepoFromApi orgRepoB

/-- The reference produced for `org/a` by expanding `org/*`. -/
def refOrgAMain : GitHubRepoReference :=
  { owner := "org".toList, name := "a".toList, fullName := "org/a".toList
    ref := some "main".toList }

/-- The reference produced for `org/b` by expanding `org/*`. -/
def refOrgBMain : GitHubRepoReference :=
  { owner := "org".toList, name := "b".toList, fullName := "org/b".toList
    ref := some "main".toList }

/-- An environment in which every collaborator succeeds (over `emptyApi`). -/
def okEnv : InitEnv :=
  { api := emptyApi
    fuel := 0
    gitAvailable := true
    bowerAvailable := true
    prepare := fun _ _ => Except.ok ()
    sync := fun _ => Except.ok ()
    configure := fun _ => Except.ok ()
    install := Except.ok () }

/-- The `okEnv` environment with the `git` command missing. -/
def noGitEnv : InitEnv :=
  { okEnv with gitAvailable := false }

/-- A fresh workspace state over root `ws`. -/
def st0 : WorkspaceState :=
  { dir := "ws".toList, cache := [], initializedRepos := none }

/-- The options `{}` (neither `fresh` nor `verbose`). -/
def defaultOpts : WorkspaceInitOptions := { fresh := false, verbose := false }

/-- A workspace state that has already recorded an (empty) initialized set. -/
def stInit : WorkspaceState :=
  { dir := "ws".toList, cache := [], initializedRepos := some [] }

/-- A request for `org/a` pinned to the ref `dev`. -/
def refADev : GitHubRepoReference :=
  { owner := "org".toList, name := "a".toList, fullName := "org/a".toList
    ref := some "dev".toList }

/-- The API repository object for `o/y` in the independent-resolution
scenario. -/
def objOY : ApiRepoObj :=
  { ownerLogin := "o".toList, name := "y".toList, fullName := "o/y".toList
    cloneUrl := "url-y".toList, defaultBranch := "main".toList, isPrivate := false }

/-- A workspace repo `P` for the `run` scenario. -/
def repoP : WorkspaceRepo :=
  { dir := "ws/p".toList, git := { cwd := "ws/p".toList }
    github := { toGitHubRepoCached :=
                  { owner := "org".toList, name := "p".toList, fullName := "org/p".toList
                    cloneUrl := "url-p".toList, defaultBranch := "main".toList }
                ref := "main".toList } }

/-- A workspace repo `Q` for the `run` scenario. -/
def repoQ : WorkspaceRepo :=
  { dir := "ws/q".toList, git := { cwd := "ws/q".toList }
    github := { toGitHubRepoCached :=
                  { owner := "org".toList, name := "q".toList, fullName := "org/q".toList
                    cloneUrl := "url-q".toList, defaultBranch := "main".toList }
                ref := "main".toList } }

/-- A workspace already initialized with `[P, Q]`. -/
def wsPQ : WorkspaceState :=
  { dir := "ws".toList, cache := [], initializedRepos := some [repoP, repoQ] }

/-- A work function that succeeds on `P` and throws on `Q`. -/
def fnPQ (repo : WorkspaceRepo) : Except JsError Unit :=
  if repo = repoP then Except.ok () else Except.error JsError.commandFailed

theorem splitOnChar_not_mem (sep : Char) (s : Str) (h : sep ∉ s) :
    splitOnChar sep s = [s] := by
  induction s with
  | nil => rfl
  | cons c rest ih =>
    rw [List.mem_cons, not_or] at h
    have hcs : ¬c = sep := fun hc => h.1 hc.symm
    simp only [splitOnChar, ih h.2, if_neg hcs]
    rfl

theorem splitOnChar_append (sep : Char) (a b : Str) (h : sep ∉ a) :
    splitOnChar sep (a ++ sep :: b) = a :: splitOnChar sep b := by
  induction a with
  | nil => simp [splitOnChar]
  | cons c a' ih =>
    rw [List.mem_cons, not_or] at h
    have hcs : ¬c = sep := fun hc => h.1 hc.symm
    simp only [List.cons_append, splitOnChar, List.append_eq, ih h.2, if_neg hcs]
    rfl

/-- C9: for every valid pattern string of the form `owner/name` or
`owner/name#ref` (segments free of `/` and `#`, ref non-empty), parsing
yields a reference whose `fullName` is `owner ++ "/" ++ name`, whose owner
and name are the corresponding segments, and whose ref is set only for the
`owner/name#ref` form. -/
theorem fullNameToGithubRepoReference_valid (owner name r : Str)
    (ho1 : '/' ∉ owner) (ho2 : '#' ∉ owner)
    (hn1 : '/' ∉ name) (hn2 : '#' ∉ name)
    (hr : '#' ∉ r) (hrne : r ≠ []) :
    fullNameToGithubRepoReference (owner ++ '/' :: name) =
      Except.ok { owner := owner, name := name,
                  fullName := owner ++ '/' :: name, ref := none } ∧
    fullNameToGithubRepoReference (owner ++ '/' :: (name ++ '#' :: r)) =
      Except.ok { owner := owner, name := name,
                  fullName := owner ++ '/' :: name, ref := some r } := by
  have hhash1 : '#' ∉ owner ++ '/' :: name := by
    intro hmem
    rcases List.mem_append.mp hmem with hm | hm
    · exact ho2 hm
    · rcases List.mem_cons.mp hm with hm | hm
      · exact absurd hm (by decide)
      · exact hn2 hm
  have e1 : splitOnChar '#' (owner ++ '/' :: name) = [owner ++ '/' :: name] :=
    splitOnChar_not_mem _ _ hhash1
  have e2 : splitOnChar '/' (owner ++ '/' :: name) = [owner, name] := by
    rw [splitOnChar_append _ _ _ ho1, splitOnChar_not_mem _ _ hn1]
  have hassoc : owner ++ '/' :: (name ++ '#' :: r) = (owner ++ '/' :: name) ++ '#' :: r := by
    simp
  have e3 : splitOnChar '#' (owner ++ '/' :: (name ++ '#' :: r)) =
      [owner ++ '/' :: name, r] := by
    rw [hassoc, splitOnChar_append _ _ _ hhash1, splitOnChar_not_mem _ _ hr]
  constructor
  · simp [fullNameToGithubRepoReference, e1, e2]
  · rcases r with _ | ⟨c, r'⟩
    · exact absurd rfl hrne
    · simp [fullNameToGithubRepoReference, e3, e2]

/-- Witness for C9 at owner `polymer`, name `paper`, ref `2.0`. -/
theorem fullNameToGithubRepoReference_valid_witness :
    fullNameToGithubRepoReference ("polymer".toList ++ '/' :: "paper".toList) =
      Except.ok { owner := "polymer".toList, name := "paper".toList,
                  fullName := "polymer".toList ++ '/' :: "paper".toList, ref := none } ∧
    fullNameToGithubRepoReference
        ("polymer".toList ++ '/' :: ("paper".toList ++ '#' :: "2.0".toList)) =
      Except.ok { owner := "polymer".toList, name := "paper".toList,
                  fullName := "polymer".toList ++ '/' :: "paper".toList,
                  ref := some "2.0".toList } :=
  fullNameToGithubRepoReference_valid _ _ _ (by decide) (by decide) (by decide)
    (by decide) (by decide) (by decide)

/-- C1 counterexample: a pattern with more than one `#` (here `a/b#c#d`) is
not skipped with a warning — `fullNameToGithubRepoReference` throws inside
the scan loop and the whole `expandRepoPatterns` call fails, losing the
well-formed pattern `good/repo` too. Only patterns missing `/` are skipped. -/
theorem expandRepoPatterns_multiHash_fails :
    (expandRepoPatterns emptyApi 0 [] ["good/repo".toList, "a/b#c#d".toList]).1 =
      Except.error (JsError.badPattern ("a/b#c#d".toList)) := rfl

/-- C2: `_determineGitHubRepos` passes `String.prototype.toLowerCase` itself
as the `map` callback, so it is invoked with an undefined `this` and throws a
TypeError for every non-empty exclude list; excluding `ORG/A` from
`{org/a, org/b}` crashes the whole call instead of dropping `org/a`. -/
theorem determineGitHubRepos_excludes_typeError :
    determineGitHubRepos emptyApi 0 [] ["org/a".toList, "org/b".toList]
        ["ORG/A".toList] =
      (Except.error JsError.typeError, [], []) := rfl

/-- C3 counterexample: the `allGitHubRepos` Set holds freshly constructed
objects, whose Set membership is reference identity, so expanding the pattern
list `["a/b", "a/b"]` returns two references with the same `fullName` —
duplicate `fullName` values are not collapsed. -/
theorem expandRepoPatterns_duplicate_fullName :
    ¬ List.Nodup
        (((expandRepoPatterns emptyApi 0 [] ["a/b".toList, "a/b".toList]).1.toOption.getD
            []).map (fun r => r.fullName)) := by
  decide

/-- C8: expanding `["org/*"]` over an organization whose listing holds public
`a`, `b` and private `c` yields exactly the references `org/a` and `org/b`
with the default branch as ref; the pagination loop requests page 0 (three
raw results, fewer than the page size of 50), still requests page 1, and
stops there because that page is empty; the private repository appears
neither in the result nor in the cache. -/
theorem expandRepoPatterns_owner_wildcard :
    expandRepoPatterns orgApi 5 [] ["org/*".toList] =
      (Except.ok [refOrgAMain, refOrgBMain],
       [("org/a".toList, cachedOrgA), ("org/b".toList, cachedOrgB)], []) ∧
    getOwnerRepos orgApi 5 [] ("org".toList) =
      some ([cachedOrgA, cachedOrgB],
            [("org/a".toList, cachedOrgA), ("org/b".toList, cachedOrgB)], [0, 1]) :=
  ⟨rfl, rfl⟩

theorem expandScanGo_no_star (ps : List Str) (refs : List GitHubRepoReference)
    (owners warns : List Str)
    (hstar : ∀ p ∈ ps, '*' ∉ p)
    (hparse : ∀ p ∈ ps, '/' ∈ p →
      ∃ r, fullNameToGithubRepoReference p = Except.ok r) :
    expandScanGo ps refs owners warns =
      (Except.ok (refs ++ ps.filterMap (fun p =>
          if '/' ∈ p then (fullNameToGithubRepoReference p).toOption else none),
        owners),
       warns ++ ps.filterMap (fun p => if '/' ∈ p then none else some p)) := by
  induction ps generalizing refs warns with
  | nil => simp [expandScanGo]
  | cons p rest ih =>
    have hstar' : ∀ q ∈ rest, '*' ∉ q :=
      fun q hq => hstar q (List.mem_cons_of_mem _ hq)
    have hparse' : ∀ q ∈ rest, '/' ∈ q →
        ∃ r, fullNameToGithubRepoReference q = Except.ok r :=
      fun q hq => hparse q (List.mem_cons_of_mem _ hq)
    by_cases hs : '/' ∈ p
    · obtain ⟨r, hr⟩ := hparse p (List.mem_cons_self _ _) hs
      have hns : '*' ∉ p := hstar p (List.mem_cons_self _ _)
      simp only [expandScanGo, if_pos hs, if_neg hns, hr]
      rw [ih _ _ hstar' hparse']
      simp [hs, hr, List.filterMap_cons, Except.toOption]
    · simp only [expandScanGo, if_neg hs]
      rw [ih _ _ hstar' hparse']
      simp [hs, List.filterMap_cons]

/-- C1 amended: `expandRepoPatterns` skips, with a warning, exactly the
patterns containing no `/`, and — provided every slash-containing pattern is
well formed and none contains a wildcard — returns the parses of the
remaining patterns in order without failing. (The original claim also let
patterns with more than one `#` be skipped; those in fact abort the whole
call, see the counterexample.) -/
theorem expandRepoPatterns_skips_missing_slash (api : GitHubApi) (fuel : Nat)
    (cache : Cache) (patterns : List Str)
    (hstar : ∀ p ∈ patterns, '*' ∉ p)
    (hparse : ∀ p ∈ patterns, '/' ∈ p →
      ∃ r, fullNameToGithubRepoReference p = Except.ok r) :
    expandRepoPatterns api fuel cache patterns =
      (Except.ok (patterns.filterMap (fun p =>
          if '/' ∈ p then (fullNameToGithubRepoReference p).toOption else none)),
       cache,
       patterns.filterMap (fun p => if '/' ∈ p then none else some p)) := by
  unfold expandRepoPatterns
  rw [expandScanGo_no_star patterns [] [] [] hstar hparse]
  simp

/-- Witness for C1 amended: `org/a` is returned, `noslash` is skipped and
warned about. -/
theorem expandRepoPatterns_skips_missing_slash_witness :
    expandRepoPatterns emptyApi 0 [] ["org/a".toList, "noslash".toList] =
      (Except.ok [{ owner := "org".toList, name := "a".toList,
                    fullName := "org/a".toList, ref := none }],
       [], ["noslash".toList]) := by
  have h := expandRepoPatterns_skips_missing_slash emptyApi 0 []
    ["org/a".toList, "noslash".toList]
    (by decide)
    (by
      intro p hp hs
      simp only [List.mem_cons, List.not_mem_nil, or_false] at hp
      rcases hp with rfl | rfl
      · exact ⟨_, rfl⟩
      · exact absurd hs (by decide))
  rw [h]
  rfl

theorem expandScanGo_refs_prefix (ps : List Str) (refs : List GitHubRepoReference)
    (owners warns : List Str) (refs' : List GitHubRepoReference)
    (owners' warns' : List Str)
    (h : expandScanGo ps refs owners warns = (Except.ok (refs', owners'), warns')) :
    refs' = refs ++ ps.filterMap (fun p =>
      if '/' ∈ p ∧ '*' ∉ p then (fullNameToGithubRepoReference p).toOption
      else none) := by
  induction ps generalizing refs owners warns with
  | nil =>
    simp only [expandScanGo, Prod.mk.injEq, Except.ok.injEq] at h
    simp [h.1.1]
  | cons p rest ih =>
    by_cases hs : '/' ∈ p
    · by_cases hw : '*' ∈ p
      · simp only [expandScanGo, if_pos hs, if_pos hw] at h
        have hrec := ih _ _ _ h
        simp [hs, hw, hrec, List.filterMap_cons]
      · simp only [expandScanGo, if_pos hs, if_neg hw] at h
        cases hparse : fullNameToGithubRepoReference p with
        | error e => rw [hparse] at h; simp at h
        | ok r =>
          rw [hparse] at h
          have hrec := ih _ _ _ h
          simp [hs, hw, hrec, hparse, List.filterMap_cons, Except.toOption]
    · simp only [expandScanGo, if_neg hs] at h
      have hrec := ih _ _ _ h
      simp [hs, hrec, List.filterMap_cons]

theorem expandOwnersGo_acc_prefix (api : GitHubApi) (fuel : Nat) (os : List Str)
    (cache : Cache) (acc l : List GitHubRepoReference) (cache' : Cache)
    (h : expandOwnersGo api fuel os cache acc = (Except.ok l, cache')) :
    ∃ rest, l = acc ++ rest := by
  induction os generalizing cache acc with
  | nil =>
    simp only [expandOwnersGo, Prod.mk.injEq, Except.ok.injEq] at h
    exact ⟨[], by simp [h.1]⟩
  | cons p rest ih =>
    simp only [expandOwnersGo] at h
    split at h
    · simp at h
    · obtain ⟨tail, ht⟩ := ih _ _ h
      exact ⟨_, by rw [ht, List.append_assoc]⟩

/-- C3 amended: the reference list returned by `expandRepoPatterns` keeps one
entry per pattern occurrence and per owner expansion — JS Set membership for
objects is reference identity and every inserted reference is freshly
constructed, so duplicate `fullName` values are not collapsed (see the
counterexample); nothing is ever overwritten: the parses of the direct
patterns form, in order and with multiplicity, a prefix of the result, and
owner expansions only append after them. -/
theorem expandRepoPatterns_appends_references (api : GitHubApi) (fuel : Nat)
    (cache : Cache) (patterns : List Str) (l : List GitHubRepoReference)
    (cache' : Cache) (warns : List Str)
    (h : expandRepoPatterns api fuel cache patterns = (Except.ok l, cache', warns)) :
    ∃ rest, l = patterns.filterMap (fun p =>
      if '/' ∈ p ∧ '*' ∉ p then (fullNameToGithubRepoReference p).toOption
      else none) ++ rest := by
  unfold expandRepoPatterns at h
  split at h
  · simp at h
  · rename_i refs owners warns0 heq
    split at h
    · simp only [Prod.mk.injEq, Except.ok.injEq] at h
      refine ⟨[], ?_⟩
      rw [← h.1, expandScanGo_refs_prefix _ _ _ _ _ _ _ heq]
      simp
    · split at h
      · simp at h
      · rename_i allRefs cache2 hown
        simp only [Prod.mk.injEq, Except.ok.injEq] at h
        obtain ⟨rest0, hrest⟩ := expandOwnersGo_acc_prefix _ _ _ _ _ _ _ hown
        refine ⟨rest0, ?_⟩
        rw [← h.1, hrest, expandScanGo_refs_prefix _ _ _ _ _ _ _ heq]
        simp

/-- Witness for C3 amended: both occurrences of `a/b` survive, in order. -/
theorem expandRepoPatterns_appends_references_witness :
    ∃ rest, ([refAB, refAB] : List GitHubRepoReference) =
      (["a/b".toList, "a/b".toList].filterMap (fun p =>
        if '/' ∈ p ∧ '*' ∉ p then (fullNameToGithubRepoReference p).toOption
        else none)) ++ rest :=
  expandRepoPatterns_appends_references emptyApi 0 []
    ["a/b".toList, "a/b".toList] [refAB, refAB] [] [] (by rfl)

/-- C7: when the reference's `fullName` is cached, `getRepoInfo` returns the
cached metadata merged with `requested ref || cached default branch`, issues
no API request (the request count is 0) and leaves the cache unchanged. The
cache value type `GitHubRepoCached` has no `ref` field, so a ref can never be
stored: it is applied only here, at resolution time. -/
theorem getRepoInfo_cache_hit (api : GitHubApi) (cache : Cache)
    (repoReference : GitHubRepoReference) (cachedRepo : GitHubRepoCached)
    (h : mapGet cache repoReference.fullName = some cachedRepo) :
    getRepoInfo api cache repoReference =
      (Except.ok { toGitHubRepoCached := cachedRepo
                   ref := jsOrStr repoReference.ref cachedRepo.defaultBranch },
       cache, 0) := by
  unfold getRepoInfo
  rw [h]

/-- Witness for C7: a cached `org/a` looked up with ref `dev`. -/
theorem getRepoInfo_cache_hit_witness :
    getRepoInfo emptyApi [("org/a".toList, cachedOrgA)] refADev =
      (Except.ok { toGitHubRepoCached := cachedOrgA, ref := "dev".toList },
       [("org/a".toList, cachedOrgA)], 0) :=
  getRepoInfo_cache_hit emptyApi [("org/a".toList, cachedOrgA)] refADev cachedOrgA rfl

/-- C5: resolution is attempted for every reference independently. First
conjunct: `resolveRefsGo` yields exactly one outcome record (success or
failure) per input reference, for every API, reference list and cache — no
failure aborts the rest. Second conjunct: in the two-repo scenario where
`o/x` fails with any error and `o/y` resolves to any non-redirect response,
`_determineGitHubRepos` returns exactly the resolved `o/y`, caches it, and
reports the failure record for `o/x`. -/
theorem resolution_failure_is_isolated :
    (∀ (api : GitHubApi) (refs : List GitHubRepoReference) (cache : Cache),
        (resolveRefsGo api refs cache).1.length = refs.length) ∧
    (∀ (ex : JsError) (respY : ApiGetResponse), respY.redirect = false →
        determineGitHubRepos (twoRepoApi ex respY) 0 []
            ["o/x".toList, "o/y".toList] [] =
          (Except.ok [{ toGitHubRepoCached := formatGitHubRepoFromApi respY.data
                        ref := (formatGitHubRepoFromApi respY.data).defaultBranch }],
           [("o/y".toList, formatGitHubRepoFromApi respY.data)],
           [{ error := ex, repoReference := refOX }])) := by
  constructor
  · intro api refs cache
    induction refs generalizing cache with
    | nil => rfl
    | cons r rest ih =>
      simp only [resolveRefsGo]
      rcases hg : getRepoInfo api cache r with ⟨res, c', n⟩
      have hrec := ih c'
      rcases hres : resolveRefsGo api rest c' with ⟨tail, c2⟩
      rw [hres] at hrec
      cases res with
      | error e => simpa [hres] using hrec
      | ok repo => simpa [hres] using hrec
  · intro ex respY hred
    rcases respY with ⟨red, data⟩
    simp only at hred
    subst hred
    rfl

/-- Witness for C5: `o/x` not found, `o/y` resolves. -/
theorem resolution_failure_is_isolated_witness :
    determineGitHubRepos (twoRepoApi JsError.notFound ⟨false, objOY⟩) 0 []
        ["o/x".toList, "o/y".toList] [] =
      (Except.ok [{ toGitHubRepoCached := formatGitHubRepoFromApi objOY
                    ref := (formatGitHubRepoFromApi objOY).defaultBranch }],
       [("o/y".toList, formatGitHubRepoFromApi objOY)],
       [{ error := JsError.notFound, repoReference := refOX }]) :=
  resolution_failure_is_isolated.2 JsError.notFound ⟨false, objOY⟩ rfl

theorem runRepos_partition (fn : WorkspaceRepo → Except JsError Unit)
    (repos : List WorkspaceRepo) :
    runRepos fn repos =
      (repos.filter (fun r => match fn r with
         | Except.ok _ => true
         | Except.error _ => false),
       repos.filterMap (fun r => match fn r with
         | Except.error e => some (r, e)
         | Except.ok _ => none)) := by
  induction repos with
  | nil => rfl
  | cons r rest ih =>
    simp only [runRepos, ih]
    cases hf : fn r with
    | ok u => simp [List.filter_cons, List.filterMap_cons, hf]
    | error e => simp [List.filter_cons, List.filterMap_cons, hf]

/-- C6: `run` fails with the not-initialized error when `init` has not
completed; otherwise it applies the function to each repository sequentially
in order, catching each failure, and returns the partition of successes and
per-repository failures. -/
theorem run_partitions (st : WorkspaceState) (fn : WorkspaceRepo → Except JsError Unit) :
    (st.initializedRepos = none → run st fn = Except.error JsError.notInitialized) ∧
    (∀ repos, st.initializedRepos = some repos →
      run st fn = Except.ok
        (repos.filter (fun r => match fn r with
           | Except.ok _ => true
           | Except.error _ => false),
         repos.filterMap (fun r => match fn r with
           | Except.error e => some (r, e)
           | Except.ok _ => none))) := by
  constructor
  · intro h
    unfold run
    rw [h]
  · intro repos h
    have hok : run st fn = Except.ok (runRepos fn repos) := by
      unfold run
      rw [h]
    rw [hok, runRepos_partition]

/-- Witness for C6: over `{P succeeds, Q throws}`, `run` returns succeeded
`[P]` and failed `{Q: error}`. -/
theorem run_partitions_witness :
    run wsPQ fnPQ = Except.ok ([repoP], [(repoQ, JsError.commandFailed)]) := by
  have h := (run_partitions wsPQ fnPQ).2 [repoP, repoQ] rfl
  rw [h]
  rfl

theorem initSteps_ok (env : InitEnv) (st1 : WorkspaceState)
    (repos : List WorkspaceRepo) (opt : WorkspaceInitOptions)
    (res : List WorkspaceRepo) (st' : WorkspaceState)
    (h : initSteps env st1 repos opt = (Except.ok res, st')) :
    res = repos ∧ st' = { st1 with initializedRepos := some repos } := by
  unfold initSteps at h
  repeat' split at h
  all_goals rw [Prod.mk.injEq] at h
  all_goals obtain ⟨h1, h2⟩ := h
  all_goals try simp at h1
  exact ⟨h1.symm, h2.symm⟩

theorem initSteps_error (env : InitEnv) (st1 : WorkspaceState)
    (repos : List WorkspaceRepo) (opt : WorkspaceInitOptions)
    (e : JsError) (st' : WorkspaceState)
    (h : initSteps env st1 repos opt = (Except.error e, st')) :
    st'.initializedRepos = st1.initializedRepos := by
  unfold initSteps at h
  repeat' split at h
  all_goals rw [Prod.mk.injEq] at h
  all_goals obtain ⟨h1, h2⟩ := h
  all_goals try simp at h1
  all_goals rw [← h2]

theorem init_ok_sets_state (env : InitEnv) (st : WorkspaceState)
    (inc exc : List Str) (opt : WorkspaceInitOptions)
    (repos : List WorkspaceRepo) (st' : WorkspaceState)
    (h : init env st inc exc opt = (Except.ok repos, st')) :
    st'.initializedRepos = some repos := by
  unfold init at h
  split at h
  · simp at h
  · split at h
    · simp at h
    · obtain ⟨hres, hst⟩ := initSteps_ok _ _ _ _ _ _ h
      rw [hst, ← hres]

/-- C4: once `init` has completed successfully on a Workspace, a second
`init` call — with any environment, patterns and options — fails with the
already-initialized error and leaves the state (in particular the recorded
repository set of the first call) unchanged. -/
theorem init_twice_fails (env : InitEnv) (st : WorkspaceState) (inc exc : List Str)
    (opt : WorkspaceInitOptions) (repos : List WorkspaceRepo) (st' : WorkspaceState)
    (h : init env st inc exc opt = (Except.ok repos, st'))
    (env2 : InitEnv) (inc2 exc2 : List Str) (opt2 : WorkspaceInitOptions) :
    init env2 st' inc2 exc2 opt2 = (Except.error JsError.alreadyInitialized, st') ∧
    st'.initializedRepos = some repos := by
  have hset := init_ok_sets_state env st inc exc opt repos st' h
  have hval : initValidate env2 st' = Except.error JsError.alreadyInitialized := by
    unfold initValidate
    rw [hset]
    simp
  refine ⟨?_, hset⟩
  unfold init
  rw [hval]

/-- Witness for C4: a successful empty init followed by a second init. -/
theorem init_twice_fails_witness :
    init okEnv stInit [] [] defaultOpts =
      (Except.error JsError.alreadyInitialized, stInit) ∧
    stInit.initializedRepos = some [] :=
  init_twice_fails okEnv st0 [] [] defaultOpts [] stInit rfl okEnv [] [] defaultOpts

theorem init_error_keeps_state (env : InitEnv) (st : WorkspaceState)
    (inc exc : List Str) (opt : WorkspaceInitOptions) (e : JsError)
    (st' : WorkspaceState)
    (h : init env st inc exc opt = (Except.error e, st')) :
    st'.initializedRepos = st.initializedRepos := by
  unfold init at h
  split at h
  · rw [Prod.mk.injEq] at h
    rw [← h.2]
  · split at h
    · rw [Prod.mk.injEq] at h
      rw [← h.2]
    · rw [initSteps_error _ _ _ _ _ _ h]

/-- C10: if `init` fails at any step (preflight, target resolution,
preparation, synchronization, bower configuration, or install), the
initialized-repository state stays unset and a subsequent `init` is not
rejected as already initialized: `_initializedRepos` is assigned only after
every step has completed. -/
theorem init_failure_leaves_uninitialized (env : InitEnv) (st : WorkspaceState)
    (inc exc : List Str) (opt : WorkspaceInitOptions) (e : JsError)
    (st' : WorkspaceState)
    (hun : st.initializedRepos = none)
    (h : init env st inc exc opt = (Except.error e, st')) :
    st'.initializedRepos = none ∧
    ∀ env2 : InitEnv, initValidate env2 st' ≠ Except.error JsError.alreadyInitialized := by
  have hkeep := init_error_keeps_state env st inc exc opt e st' h
  rw [hun] at hkeep
  refine ⟨hkeep, ?_⟩
  intro env2 hcontra
  unfold initValidate at hcontra
  rw [hkeep] at hcontra
  simp only [Option.isSome_none] at hcontra
  rw [if_neg (by decide)] at hcontra
  split at hcontra
  · exact absurd hcontra (by simp)
  · split at hcontra
    · exact absurd hcontra (by simp)
    · exact absurd hcontra (by simp)

/-- Witness for C10: an init run that fails the git preflight check leaves
the workspace uninitialized. -/
theorem init_failure_leaves_uninitialized_witness :
    st0.initializedRepos = none ∧
    ∀ env2 : InitEnv, initValidate env2 st0 ≠ Except.error JsError.alreadyInitialized :=
  init_failure_leaves_uninitialized noGitEnv st0 [] [] defaultOpts
    JsError.missingGit st0 rfl rfl

end PolymerWorkspaces
